import Mathlib

/-!
Verification of the portfolio-allocation optimizer in
`src/optimizers/allocation_optimizer.py` (class `PortfolioOptimizer`).

The numerical pipeline is shallowly embedded over exact rationals `ℚ`.
The two external numerical routines are parameters of the embedding:

* `solver` stands for `scipy.optimize.minimize(objective, w0, method='SLSQP',
  bounds=bounds, constraints=constraints)` (line 159): a function from the
  target daily reward and the `allow_short` flag (which determines the
  bounds handed to SciPy) to either a raised exception (`Except.error`) or a
  result record with the weight vector `x` and the `success` flag.
* `sqrtQ` stands for `numpy.sqrt`.  Theorems that need facts about it
  (non-negativity of its values) take them as explicit hypotheses.

Everything else (grid construction, the per-point loop with its broad
`except: continue`, the weight/allocation bookkeeping, the Sharpe scan, the
result construction including its `dict.get` accesses) is translated
directly from the Python source.
-/

namespace PortfolioOpt

/-- Result record of the abstract SLSQP call (`result.x`, `result.success`). -/
structure SolveResult where
  x : List ℚ
  success : Bool
  deriving Repr, DecidableEq

/-- Optimizer state built by `PortfolioOptimizer.__init__` (lines 41-59):
the ticker list, the mean-return vector and the covariance matrix. -/
structure PortState where
  tickers : List String
  mean_returns : List ℚ
  cov : List (List ℚ)
  deriving Repr, DecidableEq

/-- Dot product of two rational vectors (`a @ b`). -/
def dotQ : List ℚ → List ℚ → ℚ
  | a :: as, b :: bs => a * b + dotQ as bs
  | _, _ => 0

/-- Matrix-vector product (`m @ v`). -/
def matVecQ (m : List (List ℚ)) (v : List ℚ) : List ℚ :=
  m.map (fun row => dotQ row v)

/-- Quadratic form `w @ cov @ w` (line 137 / line 171). -/
def quadFormQ (cov : List (List ℚ)) (w : List ℚ) : ℚ :=
  dotQ w (matVecQ cov w)

/-- Results dictionary built by `_minimize_risks` (lines 166-178): per-ticker
currency amounts `w[i] * budget`, plus the `daily_variance`, `daily_return`,
`daily_std` and `optimization_success` entries. -/
structure MRResult where
  perTicker : List (String × ℚ)
  daily_variance : ℚ
  daily_return : ℚ
  daily_std : ℚ
  optimization_success : Bool
  deriving Repr, DecidableEq

/-- `_minimize_risks` (lines 125-181): hand the problem to the abstract
SLSQP solver and package its answer; a raised exception propagates.  The
per-ticker entries are `{self.tickers[i]: float(w[i]) * budget}` (line 170). -/
def minimizeRisks (S : PortState) (sqrtQ : ℚ → ℚ)
    (solver : ℚ → Bool → Except String SolveResult)
    (daily_reward budget : ℚ) (allow_short : Bool) : Except String MRResult :=
  match solver daily_reward allow_short with
  | .error e => .error e
  | .ok r =>
      let w := r.x
      .ok { perTicker := (List.range S.tickers.length).map
              (fun i => (S.tickers.getD i "", w.getD i 0 * budget)),
            daily_variance := quadFormQ S.cov w,
            daily_return := dotQ S.mean_returns w * budget,
            daily_std := sqrtQ (quadFormQ S.cov w) * budget,
            optimization_success := r.success }

/-- `np.min` over a vector (raises on empty input; the claims always supply a
non-empty mean-return vector, the `[]` case is an unused default). -/
def npMin (l : List ℚ) : ℚ :=
  match l with
  | [] => 0
  | x :: xs => xs.foldl min x

/-- `np.max` over a vector. -/
def npMax (l : List ℚ) : ℚ :=
  match l with
  | [] => 0
  | x :: xs => xs.foldl max x

/-- `np.linspace(a, b, n)` (line 198): `n` evenly spaced values from `a` to
`b` inclusive, step `(b - a)/(n - 1)`.  For `n = 1` rational division by zero
yields `0`, so the single value is `a`, matching NumPy's special case. -/
def linspaceQ (a b : ℚ) (n : Nat) : List ℚ :=
  (List.range n).map (fun (i : Nat) => a + (b - a) * (i : ℚ) / ((n : ℚ) - 1))

/-- The target-return grid of `efficient_frontier` (lines 193-198):
`np.linspace(np.min(self.mean_returns), np.max(self.mean_returns), n_points)`. -/
def targetGrid (S : PortState) (n : Nat) : List ℚ :=
  linspaceQ (npMin S.mean_returns) (npMax S.mean_returns) n

/-- One frontier portfolio dictionary (lines 206-213), with keys
`target_return`, `variance`, `std` and `weights`. -/
structure FrontierPoint where
  target_return : ℚ
  variance : ℚ
  std : ℚ
  weights : List (String × ℚ)
  deriving Repr, DecidableEq

/-- Construction of one frontier portfolio from a successful solve
(lines 206-213).  The weights are
`{k: v/budget if budget > 0 else v for k, v in result.items() if k in self.tickers}`;
the per-ticker entries of the results dictionary are exactly the
`(ticker, w[i] * budget)` pairs. -/
def mkPortfolio (t : ℚ) (r : MRResult) (sqrtQ : ℚ → ℚ) (budget : ℚ) : FrontierPoint :=
  { target_return := t,
    variance := r.daily_variance,
    std := sqrtQ r.daily_variance,
    weights := r.perTicker.map (fun kv => (kv.1, if budget > 0 then kv.2 / budget else kv.2)) }

/-- Outcome of one grid point of `efficient_frontier` (lines 201-220): `none`
when `_minimize_risks` raised (caught by the inner `except`, line 218) or when
`result['optimization_success']` is false (line 216), otherwise the
constructed portfolio. -/
def frontStep (S : PortState) (sqrtQ : ℚ → ℚ)
    (solver : ℚ → Bool → Except String SolveResult)
    (budget : ℚ) (allow_short : Bool) (t : ℚ) : Option FrontierPoint :=
  match minimizeRisks S sqrtQ solver t budget allow_short with
  | .error _ => none
  | .ok r => if r.optimization_success then some (mkPortfolio t r sqrtQ budget) else none

/-- `efficient_frontier` (lines 185-226): walk the target grid in order,
append each successfully solved portfolio, skip failed points and continue. -/
def efficientFrontier (S : PortState) (sqrtQ : ℚ → ℚ)
    (solver : ℚ → Bool → Except String SolveResult)
    (budget : ℚ) (n_points : Nat) (allow_short : Bool) : List FrontierPoint :=
  (targetGrid S n_points).foldl
    (fun acc t =>
      match minimizeRisks S sqrtQ solver t budget allow_short with
      | .error _ => acc
      | .ok r => if r.optimization_success then acc ++ [mkPortfolio t r sqrtQ budget] else acc)
    []

/-- Whether the grid point `t` solves successfully (used to characterise which
grid points survive into the frontier). -/
def solvedAt (S : PortState) (sqrtQ : ℚ → ℚ)
    (solver : ℚ → Bool → Except String SolveResult)
    (budget : ℚ) (allow_short : Bool) (t : ℚ) : Bool :=
  match minimizeRisks S sqrtQ solver t budget allow_short with
  | .error _ => false
  | .ok r => r.optimization_success

/-- The hard-coded risk-free rate of `return_highest_sharpe_ratio`
(line 246): `0.03 / 252`. -/
def riskFreeRate : ℚ := (0.03 : ℚ) / 252

/-- Sharpe ratio of one frontier portfolio (line 261):
`(expected_return - risk_free_rate) / std_dev` with the hard-coded rate. -/
def sharpeOf (p : FrontierPoint) : ℚ :=
  (p.target_return - riskFreeRate) / p.std

/-- The selection loop of `return_highest_sharpe_ratio` (lines 249-270):
state is `(max_sharpe_ratio, portfolio_index)`, with `none` standing for the
initial `-np.inf`; a point with `std_dev == 0` is skipped; the best is
replaced only on strict improvement. -/
def selGo : List FrontierPoint → Nat → Option ℚ × Int → Option ℚ × Int
  | [], _, st => st
  | p :: rest, i, st =>
      if p.std = 0 then selGo rest (i + 1) st
      else
        match st.1 with
        | none => selGo rest (i + 1) (some (sharpeOf p), (i : Int))
        | some m =>
            if m < sharpeOf p then selGo rest (i + 1) (some (sharpeOf p), (i : Int))
            else selGo rest (i + 1) st

/-- The full scan, started from `max_sharpe_ratio = -np.inf`,
`portfolio_index = -1` (lines 249-250). -/
def selectLoop (ef : List FrontierPoint) : Option ℚ × Int :=
  selGo ef 0 (none, -1)

/-- Modelled from the spec: §4.3 describes the Sharpe selector as taking a
caller-supplied period-consistent risk-free rate; this is the selection loop
of lines 249-270 with the rate as a parameter instead of the constant of
line 246, used only to compare the source's fixed-rate loop against the
spec's parameterised contract (claim about the rate being hard-coded). -/
def specSelGo (rf : ℚ) : List FrontierPoint → Nat → Option ℚ × Int → Option ℚ × Int
  | [], _, st => st
  | p :: rest, i, st =>
      if p.std = 0 then specSelGo rf rest (i + 1) st
      else
        match st.1 with
        | none => specSelGo rf rest (i + 1) (some ((p.target_return - rf) / p.std), (i : Int))
        | some m =>
            if m < (p.target_return - rf) / p.std then
              specSelGo rf rest (i + 1) (some ((p.target_return - rf) / p.std), (i : Int))
            else specSelGo rf rest (i + 1) st

/-- Parameterised full scan (spec-side definition for the rate claim). -/
def specSelectLoop (rf : ℚ) (ef : List FrontierPoint) : Option ℚ × Int :=
  specSelGo rf ef 0 (none, -1)

/-- The final result record (`OptimizerResult`, lines 24-29). -/
structure OptimizerResult where
  weights : List (String × ℚ)
  sharpe_ratio : ℚ
  budget_allocation : List (String × ℚ)
  target_return : ℚ
  volatility : ℚ
  deriving Repr, DecidableEq

/-- Python `best_portfolio.get(key)` on the frontier dictionary of
lines 206-213 restricted to its numeric entries: the dictionary has exactly
the keys `target_return`, `variance`, `std` (and `weights`, a dictionary,
never fetched through `.get`); any other key yields `None`. -/
def FrontierPoint.getStat (p : FrontierPoint) (k : String) : Option ℚ :=
  if k = "target_return" then some p.target_return
  else if k = "variance" then some p.variance
  else if k = "std" then some p.std
  else none

/-- The allocation computed on line 278:
`{k: v * float(budget) for k, v in best_portfolio['weights'].items()}`. -/
def allocationBudget (weights : List (String × ℚ)) (budget : ℚ) : List (String × ℚ) :=
  weights.map (fun kv => (kv.1, kv.2 * budget))

/-- `return_highest_sharpe_ratio` (lines 228-296).  The frontier is computed
with the default `n_points = 50` (line 237 passes no `n_points`).  An empty
frontier raises `ValueError("Efficient frontier is empty")` (line 242); a
scan that never finds a valid point leaves `portfolio_index = -1` and raises
`ValueError("Could not find best portfolio")` (line 276).  Line 289 fetches
`best_portfolio.get("daily_variance")` — a key the frontier dictionary does
not have — so the volatility expression multiplies `None` by `np.sqrt(252)`
and raises a `TypeError`; the embedding returns that error in this case. -/
def returnHighestSharpeRatio (S : PortState) (sqrtQ : ℚ → ℚ)
    (solver : ℚ → Bool → Except String SolveResult)
    (budget : ℚ) (allow_short : Bool) : Except String OptimizerResult :=
  let ef := efficientFrontier S sqrtQ solver budget 50 allow_short
  if ef.isEmpty then .error "Efficient frontier is empty"
  else
    let sel := selectLoop ef
    match sel.2 with
    | .negSucc _ => .error "Could not find best portfolio"
    | .ofNat i =>
        match ef[i]? with
        | none => .error "IndexError"
        | some best =>
            let alloc := allocationBudget best.weights budget
            match best.getStat "daily_variance" with
            | none => .error "TypeError: unsupported operand type(s) for *: NoneType and float"
            | some dv =>
                .ok { weights := best.weights,
                      sharpe_ratio := sel.1.getD 0,
                      budget_allocation := alloc,
                      target_return := (best.getStat "target_return").getD 0,
                      volatility := dv * sqrtQ 252 }

/-! ### Returns Estimator (`__init__`, `__extract_data`, `__normalize_data`)

Price columns are modelled per ticker as `List (Option ℚ)` over the aligned
date index (`none` = missing value / `NaN`).  `NaN`-valued statistics are
modelled as `none`. -/

/-- Forward fill of one price column (`ffill()`, line 107), carrying the last
seen value. -/
def ffillGo : Option ℚ → List (Option ℚ) → List (Option ℚ)
  | _, [] => []
  | last, none :: xs => last :: ffillGo last xs
  | _, some v :: xs => some v :: ffillGo (some v) xs

/-- Forward fill starting with no previous value. -/
def ffill (c : List (Option ℚ)) : List (Option ℚ) := ffillGo none c

/-- Row `i` across all columns. -/
def rowAt (cols : List (List (Option ℚ))) (i : Nat) : List (Option ℚ) :=
  cols.map (fun c => c.getD i none)

/-- `dropna()` over rows (line 107): keep exactly the rows where every ticker
has a value. -/
def completeRows (cols : List (List (Option ℚ))) (nRows : Nat) : List (List ℚ) :=
  (List.range nRows).filterMap (fun i =>
    let r := rowAt cols i
    if r.all Option.isSome then some (r.map (fun o => o.getD 0)) else none)

/-- `pct_change().dropna()` (line 117): period-over-period percentage change
between consecutive surviving rows; the leading `NaN` row is dropped. -/
def pctChangeRows : List (List ℚ) → List (List ℚ)
  | r1 :: r2 :: rest => List.zipWith (fun a b => (b - a) / a) r1 r2 :: pctChangeRows (r2 :: rest)
  | _ => []

/-- Values of column `j` of the returns matrix. -/
def colVals (rows : List (List ℚ)) (j : Nat) : List ℚ :=
  rows.map (fun r => r.getD j 0)

/-- `DataFrame.mean()` for one column (line 53): `NaN` (here `none`) on an
empty column, otherwise the arithmetic mean. -/
def colMean (rows : List (List ℚ)) (j : Nat) : Option ℚ :=
  if rows.length = 0 then none
  else some ((colVals rows j).sum / (rows.length : ℚ))

/-- `DataFrame.cov()` entry (line 56): sample covariance with denominator
`N - 1`; `NaN` (here `none`) when fewer than 2 observations exist. -/
def colCov (rows : List (List ℚ)) (i j : Nat) : Option ℚ :=
  if rows.length < 2 then none
  else
    let mi := (colVals rows i).sum / (rows.length : ℚ)
    let mj := (colVals rows j).sum / (rows.length : ℚ)
    some ((List.zipWith (fun a b => (a - mi) * (b - mj)) (colVals rows i) (colVals rows j)).sum
      / ((rows.length : ℚ) - 1))

/-- The statistics held by the optimizer after `__init__`. -/
structure EstimatorStats where
  mean_returns : List (Option ℚ)
  cov : List (List (Option ℚ))
  deriving Repr, DecidableEq

/-- The data path of `PortfolioOptimizer.__init__` (lines 46-57) from aligned
price columns: forward fill, drop incomplete rows, percentage change, then
mean vector and covariance matrix.  The surrounding `try` re-raises only
actual exceptions; pandas raises nothing on short data (statistics of an
empty frame are `NaN`), so this path always returns `Except.ok`. -/
def optimizerInit (tickers : List String) (cols : List (List (Option ℚ)))
    (nRows : Nat) : Except String EstimatorStats :=
  let aligned := completeRows (cols.map ffill) nRows
  let rets := pctChangeRows aligned
  .ok { mean_returns := (List.range tickers.length).map (colMean rets),
        cov := (List.range tickers.length).map
          (fun i => (List.range tickers.length).map (fun j => colCov rets i j)) }

/-! ### Frontier structure: per-point isolation and grid order -/

/-- The frontier fold appends exactly the successfully solved points, in grid
order, to whatever has been accumulated so far. -/
theorem frontFold_eq (S : PortState) (sqrtQ : ℚ → ℚ)
    (solver : ℚ → Bool → Except String SolveResult)
    (budget : ℚ) (allow_short : Bool) (l : List ℚ) : ∀ acc : List FrontierPoint,
    l.foldl
      (fun acc t =>
        match minimizeRisks S sqrtQ solver t budget allow_short with
        | .error _ => acc
        | .ok r => if r.optimization_success then acc ++ [mkPortfolio t r sqrtQ budget] else acc)
      acc
    = acc ++ l.filterMap (frontStep S sqrtQ solver budget allow_short) := by
  induction l with
  | nil => intro acc; simp
  | cons t rest ih =>
      intro acc
      simp only [List.foldl_cons, List.filterMap_cons, frontStep]
      cases hmr : minimizeRisks S sqrtQ solver t budget allow_short with
      | error e => simp [ih]
      | ok r =>
          by_cases hs : r.optimization_success
          · simp [hs, ih]
          · simp [hs, ih]

/-- The frontier is the grid filtered down to the successfully solved points
(shared helper). -/
theorem efficientFrontier_eq (S : PortState) (sqrtQ : ℚ → ℚ)
    (solver : ℚ → Bool → Except String SolveResult)
    (budget : ℚ) (n : Nat) (allow_short : Bool) :
    efficientFrontier S sqrtQ solver budget n allow_short
      = (targetGrid S n).filterMap (frontStep S sqrtQ solver budget allow_short) := by
  unfold efficientFrontier
  rw [frontFold_eq]
  simp

/-- Every frontier point is the portfolio built from some grid point and
solver result; in particular its `std` is `sqrtQ` of its variance. -/
theorem mem_frontier_shape (S : PortState) (sqrtQ : ℚ → ℚ)
    (solver : ℚ → Bool → Except String SolveResult)
    (budget : ℚ) (n : Nat) (allow_short : Bool) (p : FrontierPoint)
    (hp : p ∈ efficientFrontier S sqrtQ solver budget n allow_short) :
    ∃ t r, p = mkPortfolio t r sqrtQ budget := by
  rw [efficientFrontier_eq] at hp
  rw [List.mem_filterMap] at hp
  obtain ⟨t, _, hstep⟩ := hp
  unfold frontStep at hstep
  split at hstep
  · exact absurd hstep (by simp)
  · rename_i r _
    split at hstep
    · exact ⟨t, r, (Option.some.inj hstep).symm⟩
    · exact absurd hstep (by simp)

/-- In a frontier, `std` values are values of `sqrtQ`. -/
theorem mem_frontier_std (S : PortState) (sqrtQ : ℚ → ℚ)
    (solver : ℚ → Bool → Except String SolveResult)
    (budget : ℚ) (n : Nat) (allow_short : Bool) (p : FrontierPoint)
    (hp : p ∈ efficientFrontier S sqrtQ solver budget n allow_short) :
    ∃ v, p.std = sqrtQ v := by
  obtain ⟨t, r, rfl⟩ := mem_frontier_shape S sqrtQ solver budget n allow_short p hp
  exact ⟨r.daily_variance, rfl⟩

/-- Claim C6: a failed grid point (solver exception or non-convergence) never
aborts `efficient_frontier`; the point is omitted and the computation
continues, so the frontier consists of exactly the successfully solved grid
points, in grid order. -/
theorem C6_per_point_isolation (S : PortState) (sqrtQ : ℚ → ℚ)
    (solver : ℚ → Bool → Except String SolveResult)
    (budget : ℚ) (n : Nat) (allow_short : Bool) :
    efficientFrontier S sqrtQ solver budget n allow_short
      = (targetGrid S n).filterMap (frontStep S sqrtQ solver budget allow_short) :=
  efficientFrontier_eq S sqrtQ solver budget n allow_short

/-! ### Grid lemmas -/

theorem foldl_min_le (xs : List ℚ) : ∀ a : ℚ, xs.foldl min a ≤ a := by
  induction xs with
  | nil => intro a; exact le_refl a
  | cons x xs ih =>
      intro a
      calc (x :: xs).foldl min a = xs.foldl min (min a x) := by simp
        _ ≤ min a x := ih (min a x)
        _ ≤ a := min_le_left a x

theorem le_foldl_max (xs : List ℚ) : ∀ a : ℚ, a ≤ xs.foldl max a := by
  induction xs with
  | nil => intro a; exact le_refl a
  | cons x xs ih =>
      intro a
      calc a ≤ max a x := le_max_left a x
        _ ≤ xs.foldl max (max a x) := ih (max a x)
        _ = (x :: xs).foldl max a := by simp

/-- On a non-empty vector, `np.min ≤ np.max`. -/
theorem npMin_le_npMax (l : List ℚ) (h : l ≠ []) : npMin l ≤ npMax l := by
  cases l with
  | nil => exact absurd rfl h
  | cons x xs =>
      calc npMin (x :: xs) = xs.foldl min x := rfl
        _ ≤ x := foldl_min_le xs x
        _ ≤ xs.foldl max x := le_foldl_max xs x
        _ = npMax (x :: xs) := rfl

theorem linspaceQ_getElem? (a b : ℚ) (n : Nat) (i : Nat) (h : i < n) :
    (linspaceQ a b n)[i]? = some (a + (b - a) * i / ((n : ℚ) - 1)) := by
  unfold linspaceQ
  rw [List.getElem?_map, List.getElem?_range h]
  rfl

theorem linspaceQ_length (a b : ℚ) (n : Nat) : (linspaceQ a b n).length = n := by
  unfold linspaceQ
  rw [List.length_map, List.length_range]

/-- Monotone non-decreasing grid when `a ≤ b`. -/
theorem linspaceQ_pairwise (a b : ℚ) (n : Nat) (hab : a ≤ b) :
    (linspaceQ a b n).Pairwise (· ≤ ·) := by
  rw [List.pairwise_iff_getElem]
  intro i j hi hj hij
  have hi2 : i < n := by rwa [linspaceQ_length] at hi
  have hj2 : j < n := by rwa [linspaceQ_length] at hj
  have hji := linspaceQ_getElem? a b n i hi2
  have hjj := linspaceQ_getElem? a b n j hj2
  rw [List.getElem?_eq_getElem hi, Option.some_inj] at hji
  rw [List.getElem?_eq_getElem hj, Option.some_inj] at hjj
  rw [hji, hjj]
  have hn2 : 2 ≤ n := by omega
  have hc : (0 : ℚ) < (n : ℚ) - 1 := by
    have : (2 : ℚ) ≤ (n : ℚ) := by exact_mod_cast hn2
    linarith
  have hba : (0 : ℚ) ≤ b - a := by linarith
  have hnum : (b - a) * (i : ℚ) ≤ (b - a) * (j : ℚ) := by
    have hij2 : (i : ℚ) ≤ (j : ℚ) := by exact_mod_cast Nat.le_of_lt hij
    nlinarith
  have hmono : (b - a) * (i : ℚ) / ((n : ℚ) - 1) ≤ (b - a) * (j : ℚ) / ((n : ℚ) - 1) := by
    gcongr
  linarith

/-- Grid values stay between the endpoints when `a ≤ b`. -/
theorem linspaceQ_mem_bounds (a b : ℚ) (n : Nat) (hab : a ≤ b) (t : ℚ)
    (ht : t ∈ linspaceQ a b n) : a ≤ t ∧ t ≤ b := by
  simp only [linspaceQ, List.mem_map, List.mem_range] at ht
  obtain ⟨i, hi, rfl⟩ := ht
  by_cases hn : n ≤ 1
  · have : i = 0 := by omega
    subst this
    constructor
    · simp
    · push_cast
      simpa using hab
  · have hc : (0 : ℚ) < (n : ℚ) - 1 := by
      have : (2 : ℚ) ≤ (n : ℚ) := by exact_mod_cast (by omega : 2 ≤ n)
      linarith
    have h1 : (0 : ℚ) ≤ (b - a) * (i : ℚ) / ((n : ℚ) - 1) := by
      apply div_nonneg _ (le_of_lt hc)
      have : (0 : ℚ) ≤ (i : ℚ) := by positivity
      nlinarith
    have h2 : (b - a) * (i : ℚ) / ((n : ℚ) - 1) ≤ b - a := by
      rw [div_le_iff₀ hc]
      have hin : (i : ℚ) ≤ (n : ℚ) - 1 := by
        have : (i : ℚ) ≤ (n : ℚ) - 1 ↔ (i : ℚ) + 1 ≤ (n : ℚ) := by constructor <;> intro <;> linarith
        rw [this]
        exact_mod_cast hi
      nlinarith
    constructor <;> linarith

/-- The filtered targets of the frontier. -/
theorem frontier_targets_eq_filter (S : PortState) (sqrtQ : ℚ → ℚ)
    (solver : ℚ → Bool → Except String SolveResult)
    (budget : ℚ) (n : Nat) (allow_short : Bool) :
    (efficientFrontier S sqrtQ solver budget n allow_short).map FrontierPoint.target_return
      = (targetGrid S n).filter (solvedAt S sqrtQ solver budget allow_short) := by
  rw [efficientFrontier_eq]
  induction targetGrid S n with
  | nil => rfl
  | cons t rest ih =>
      cases hmr : minimizeRisks S sqrtQ solver t budget allow_short with
      | error e =>
          have h1 : frontStep S sqrtQ solver budget allow_short t = none := by
            simp [frontStep, hmr]
          have h2 : solvedAt S sqrtQ solver budget allow_short t = false := by
            simp [solvedAt, hmr]
          simp only [List.filterMap_cons, List.filter_cons, h1, h2]
          simpa using ih
      | ok r =>
          by_cases hs : r.optimization_success
          · have h1 : frontStep S sqrtQ solver budget allow_short t
                = some (mkPortfolio t r sqrtQ budget) := by
              simp [frontStep, hmr, hs]
            have h2 : solvedAt S sqrtQ solver budget allow_short t = true := by
              simp [solvedAt, hmr, hs]
            simp only [List.filterMap_cons, List.filter_cons, h1, h2, List.map_cons, ih]
            simp [mkPortfolio]
          · have h1 : frontStep S sqrtQ solver budget allow_short t = none := by
              simp [frontStep, hmr, hs]
            have h2 : solvedAt S sqrtQ solver budget allow_short t = false := by
              simp [solvedAt, hmr, hs]
            simp only [List.filterMap_cons, List.filter_cons, h1, h2]
            simpa using ih

/-! ### Selection-loop lemmas -/

/-- If every point has `std = 0`, every iteration takes the skip branch and
the state never changes. -/
theorem selGo_const (l : List FrontierPoint) :
    ∀ (n : Nat) (st : Option ℚ × Int), (∀ p ∈ l, p.std = 0) → selGo l n st = st := by
  induction l with
  | nil => intro n st _; rfl
  | cons p rest ih =>
      intro n st h
      have hp : p.std = 0 := h p (List.mem_cons_self p rest)
      have hrest : ∀ q ∈ rest, q.std = 0 := fun q hq => h q (List.mem_cons_of_mem p hq)
      simp only [selGo, hp, if_pos]
      exact ih (n + 1) st hrest

/-- On a frontier whose points all have `std = 0`, the scan ends with
`max_sharpe_ratio = -inf` and `portfolio_index = -1`. -/
theorem selectLoop_all_zero (ef : List FrontierPoint) (h : ∀ p ∈ ef, p.std = 0) :
    selectLoop ef = (none, -1) :=
  selGo_const ef 0 (none, -1) h

/-- Step equation: a point with `std = 0` is skipped. -/
theorem selGo_cons_skip (p : FrontierPoint) (rest : List FrontierPoint) (i : Nat)
    (st : Option ℚ × Int) (h : p.std = 0) :
    selGo (p :: rest) i st = selGo rest (i + 1) st := by
  simp only [selGo, h, if_pos]

/-- Step equation: the first valid point always replaces `-inf`. -/
theorem selGo_cons_none (p : FrontierPoint) (rest : List FrontierPoint) (i : Nat)
    (idx : Int) (h : p.std ≠ 0) :
    selGo (p :: rest) i (none, idx) = selGo rest (i + 1) (some (sharpeOf p), (i : Int)) := by
  simp only [selGo, h, if_neg, ite_false]

/-- Step equation: strict improvement replaces the running best. -/
theorem selGo_cons_lt (p : FrontierPoint) (rest : List FrontierPoint) (i : Nat)
    (m : ℚ) (idx : Int) (h : p.std ≠ 0) (him : m < sharpeOf p) :
    selGo (p :: rest) i (some m, idx) = selGo rest (i + 1) (some (sharpeOf p), (i : Int)) := by
  simp only [selGo, h, if_neg, ite_false, him, if_pos, ite_true]

/-- Step equation: no strict improvement keeps the running best. -/
theorem selGo_cons_ge (p : FrontierPoint) (rest : List FrontierPoint) (i : Nat)
    (m : ℚ) (idx : Int) (h : p.std ≠ 0) (him : ¬ m < sharpeOf p) :
    selGo (p :: rest) i (some m, idx) = selGo rest (i + 1) (some m, idx) := by
  simp only [selGo, h, if_neg, ite_false, him]

/-- Complete characterisation of the scan: either no point with non-zero
`std` improves on the incoming state (which is then returned unchanged, and
every such point's Sharpe ratio is at most the incoming maximum), or the
scan returns the first point attaining the running maximum: its Sharpe ratio
strictly exceeds the incoming maximum and the ratio of every valid point
strictly before it, and is at least the ratio of every valid point. -/
theorem selGo_out (l : List FrontierPoint) :
    ∀ (n : Nat) (st : Option ℚ × Int),
    (selGo l n st = st ∧
      ∀ (j : Nat) (q : FrontierPoint), l[j]? = some q → q.std ≠ 0 →
        ∃ m, st.1 = some m ∧ sharpeOf q ≤ m)
    ∨ (∃ (k : Nat) (p : FrontierPoint), l[k]? = some p ∧ p.std ≠ 0 ∧
        selGo l n st = (some (sharpeOf p), ((n + k : Nat) : Int)) ∧
        (∀ m, st.1 = some m → m < sharpeOf p) ∧
        (∀ (j : Nat) (q : FrontierPoint), l[j]? = some q → q.std ≠ 0 →
          sharpeOf q ≤ sharpeOf p) ∧
        (∀ (j : Nat) (q : FrontierPoint), j < k → l[j]? = some q → q.std ≠ 0 →
          sharpeOf q < sharpeOf p)) := by
  induction l with
  | nil =>
      intro n st
      left
      refine ⟨rfl, ?_⟩
      intro j q hj
      simp at hj
  | cons p rest ih =>
      intro n st
      by_cases hstd : p.std = 0
      · -- skip branch
        have hgo := selGo_cons_skip p rest n st hstd
        rcases ih (n + 1) st with ⟨heq, hall⟩ | ⟨k, w, hk, hwstd, hout, hst, hle, hlt⟩
        · left
          refine ⟨hgo.trans heq, ?_⟩
          intro j q hj hq
          cases j with
          | zero =>
              rw [List.getElem?_cons_zero, Option.some_inj] at hj
              exact absurd (hj ▸ hstd) hq
          | succ j =>
              rw [List.getElem?_cons_succ] at hj
              exact hall j q hj hq
        · right
          refine ⟨k + 1, w, ?_, hwstd, ?_, hst, ?_, ?_⟩
          · rwa [List.getElem?_cons_succ]
          · rw [hgo, hout, show n + 1 + k = n + (k + 1) from by omega]
          · intro j q hj hq
            cases j with
            | zero =>
                rw [List.getElem?_cons_zero, Option.some_inj] at hj
                exact absurd (hj ▸ hstd) hq
            | succ j =>
                rw [List.getElem?_cons_succ] at hj
                exact hle j q hj hq
          · intro j q hjk hj hq
            cases j with
            | zero =>
                rw [List.getElem?_cons_zero, Option.some_inj] at hj
                exact absurd (hj ▸ hstd) hq
            | succ j =>
                rw [List.getElem?_cons_succ] at hj
                exact hlt j q (by omega) hj hq
      · obtain ⟨mx, idx⟩ := st
        cases mx with
        | none =>
            have hgo := selGo_cons_none p rest n idx hstd
            rcases ih (n + 1) (some (sharpeOf p), (n : Int)) with
              ⟨heq, hall⟩ | ⟨k, w, hk, hwstd, hout, hst, hle, hlt⟩
            · right
              refine ⟨0, p, List.getElem?_cons_zero, hstd, ?_, ?_, ?_, ?_⟩
              · rw [hgo, heq, show n + 0 = n from rfl]
              · intro m hm
                simp at hm
              · intro j q hj hq
                cases j with
                | zero =>
                    rw [List.getElem?_cons_zero, Option.some_inj] at hj
                    rw [hj]
                | succ j =>
                    rw [List.getElem?_cons_succ] at hj
                    obtain ⟨m, hm, hqm⟩ := hall j q hj hq
                    rw [Option.some_inj] at hm
                    exact hqm.trans (le_of_eq hm.symm)
              · intro j q hjk
                omega
            · right
              refine ⟨k + 1, w, ?_, hwstd, ?_, ?_, ?_, ?_⟩
              · rwa [List.getElem?_cons_succ]
              · rw [hgo, hout, show n + 1 + k = n + (k + 1) from by omega]
              · intro m hm
                simp at hm
              · intro j q hj hq
                cases j with
                | zero =>
                    rw [List.getElem?_cons_zero, Option.some_inj] at hj
                    rw [← hj]
                    exact le_of_lt (hst (sharpeOf p) rfl)
                | succ j =>
                    rw [List.getElem?_cons_succ] at hj
                    exact hle j q hj hq
              · intro j q hjk hj hq
                cases j with
                | zero =>
                    rw [List.getElem?_cons_zero, Option.some_inj] at hj
                    rw [← hj]
                    exact hst (sharpeOf p) rfl
                | succ j =>
                    rw [List.getElem?_cons_succ] at hj
                    exact hlt j q (by omega) hj hq
        | some m =>
            by_cases himp : m < sharpeOf p
            · have hgo := selGo_cons_lt p rest n m idx hstd himp
              rcases ih (n + 1) (some (sharpeOf p), (n : Int)) with
                ⟨heq, hall⟩ | ⟨k, w, hk, hwstd, hout, hst, hle, hlt⟩
              · right
                refine ⟨0, p, List.getElem?_cons_zero, hstd, ?_, ?_, ?_, ?_⟩
                · rw [hgo, heq, show n + 0 = n from rfl]
                · intro m0 hm0
                  rw [Option.some_inj] at hm0
                  rw [← hm0]
                  exact himp
                · intro j q hj hq
                  cases j with
                  | zero =>
                      rw [List.getElem?_cons_zero, Option.some_inj] at hj
                      rw [hj]
                  | succ j =>
                      rw [List.getElem?_cons_succ] at hj
                      obtain ⟨m1, hm1, hqm⟩ := hall j q hj hq
                      rw [Option.some_inj] at hm1
                      exact hqm.trans (le_of_eq hm1.symm)
                · intro j q hjk
                  omega
              · right
                refine ⟨k + 1, w, ?_, hwstd, ?_, ?_, ?_, ?_⟩
                · rwa [List.getElem?_cons_succ]
                · rw [hgo, hout, show n + 1 + k = n + (k + 1) from by omega]
                · intro m0 hm0
                  rw [Option.some_inj] at hm0
                  rw [← hm0]
                  exact himp.trans (hst (sharpeOf p) rfl)
                · intro j q hj hq
                  cases j with
                  | zero =>
                      rw [List.getElem?_cons_zero, Option.some_inj] at hj
                      rw [← hj]
                      exact le_of_lt (hst (sharpeOf p) rfl)
                  | succ j =>
                      rw [List.getElem?_cons_succ] at hj
                      exact hle j q hj hq
                · intro j q hjk hj hq
                  cases j with
                  | zero =>
                      rw [List.getElem?_cons_zero, Option.some_inj] at hj
                      rw [← hj]
                      exact hst (sharpeOf p) rfl
                  | succ j =>
                      rw [List.getElem?_cons_succ] at hj
                      exact hlt j q (by omega) hj hq
            · have hgo := selGo_cons_ge p rest n m idx hstd himp
              rcases ih (n + 1) (some m, idx) with
                ⟨heq, hall⟩ | ⟨k, w, hk, hwstd, hout, hst, hle, hlt⟩
              · left
                refine ⟨hgo.trans heq, ?_⟩
                intro j q hj hq
                cases j with
                | zero =>
                    rw [List.getElem?_cons_zero, Option.some_inj] at hj
                    rw [← hj]
                    exact ⟨m, rfl, le_of_not_lt himp⟩
                | succ j =>
                    rw [List.getElem?_cons_succ] at hj
                    exact hall j q hj hq
              · right
                refine ⟨k + 1, w, ?_, hwstd, ?_, hst, ?_, ?_⟩
                · rwa [List.getElem?_cons_succ]
                · rw [hgo, hout, show n + 1 + k = n + (k + 1) from by omega]
                · intro j q hj hq
                  cases j with
                  | zero =>
                      rw [List.getElem?_cons_zero, Option.some_inj] at hj
                      rw [← hj]
                      exact le_of_lt (lt_of_le_of_lt (le_of_not_lt himp) (hst m rfl))
                  | succ j =>
                      rw [List.getElem?_cons_succ] at hj
                      exact hle j q hj hq
                · intro j q hjk hj hq
                  cases j with
                  | zero =>
                      rw [List.getElem?_cons_zero, Option.some_inj] at hj
                      rw [← hj]
                      exact lt_of_le_of_lt (le_of_not_lt himp) (hst m rfl)
                  | succ j =>
                      rw [List.getElem?_cons_succ] at hj
                      exact hlt j q (by omega) hj hq

/-- If some point has non-zero `std`, the scan finds a winner: the first
point attaining the maximum Sharpe ratio among valid points. -/
theorem selectLoop_found (ef : List FrontierPoint) (hex : ∃ p ∈ ef, p.std ≠ 0) :
    ∃ (k : Nat) (p : FrontierPoint), ef[k]? = some p ∧ p.std ≠ 0 ∧
      selectLoop ef = (some (sharpeOf p), (k : Int)) ∧
      (∀ (j : Nat) (q : FrontierPoint), ef[j]? = some q → q.std ≠ 0 →
        sharpeOf q ≤ sharpeOf p) ∧
      (∀ (j : Nat) (q : FrontierPoint), j < k → ef[j]? = some q → q.std ≠ 0 →
        sharpeOf q < sharpeOf p) := by
  rcases selGo_out ef 0 (none, -1) with ⟨heq, hall⟩ | ⟨k, p, hk, hpstd, hout, hst, hle, hlt⟩
  · obtain ⟨p, hp, hstd⟩ := hex
    obtain ⟨j, hj⟩ := List.mem_iff_getElem?.mp hp
    obtain ⟨m, hm, hqm⟩ := hall j p hj hstd
    simp at hm
  · refine ⟨k, p, hk, hpstd, ?_, hle, hlt⟩
    unfold selectLoop
    rw [hout]
    norm_num

/-- Claim C3: on a non-empty frontier with at least one positive-`std` point
(all `std` values non-negative, targets in ascending order), the scan selects
a positive-`std` point whose Sharpe ratio is at least that of every valid
point, strictly greater than that of every valid point before it (so the
first maximum wins), and of lowest target return among the valid points
attaining the maximum; a `std = 0` point is never selected. -/
theorem C3_sharpe_selection (ef : List FrontierPoint)
    (hnn : ∀ p ∈ ef, 0 ≤ p.std)
    (hsorted : ef.Pairwise (fun p q => p.target_return ≤ q.target_return))
    (hex : ∃ p ∈ ef, 0 < p.std) :
    ∃ (i : Nat) (p : FrontierPoint), (selectLoop ef).2 = (i : Int) ∧ ef[i]? = some p ∧
      0 < p.std ∧
      (∀ (j : Nat) (q : FrontierPoint), ef[j]? = some q → 0 < q.std →
        sharpeOf q ≤ sharpeOf p) ∧
      (∀ (j : Nat) (q : FrontierPoint), j < i → ef[j]? = some q → 0 < q.std →
        sharpeOf q < sharpeOf p) ∧
      (∀ (j : Nat) (q : FrontierPoint), ef[j]? = some q → 0 < q.std →
        sharpeOf q = sharpeOf p → p.target_return ≤ q.target_return) := by
  have hex2 : ∃ p ∈ ef, p.std ≠ 0 := by
    obtain ⟨p, hp, hstd⟩ := hex
    exact ⟨p, hp, ne_of_gt hstd⟩
  obtain ⟨k, p, hk, hpstd, hout, hle, hlt⟩ := selectLoop_found ef hex2
  have hkmem : p ∈ ef := by
    obtain ⟨hlen, hget⟩ := List.getElem?_eq_some.mp hk
    exact hget ▸ List.getElem_mem hlen
  have hp0 : 0 < p.std := lt_of_le_of_ne (hnn p hkmem) (Ne.symm hpstd)
  refine ⟨k, p, by rw [hout], hk, hp0, ?_, ?_, ?_⟩
  · intro j q hj hq
    exact hle j q hj (ne_of_gt hq)
  · intro j q hjk hj hq
    exact hlt j q hjk hj (ne_of_gt hq)
  · intro j q hj hq heq
    by_cases hjk : j < k
    · exact absurd heq (ne_of_lt (hlt j q hjk hj (ne_of_gt hq)))
    · rcases Nat.lt_or_ge k j with hkj | hkj
      · obtain ⟨hjlen, hjget⟩ := List.getElem?_eq_some.mp hj
        obtain ⟨hklen, hkget⟩ := List.getElem?_eq_some.mp hk
        have := List.pairwise_iff_getElem.mp hsorted k j hklen hjlen hkj
        rw [hkget, hjget] at this
        exact this
      · have : j = k := by omega
        subst this
        rw [hj, Option.some_inj] at hk
        rw [hk]

/-- Claim C7: `return_highest_sharpe_ratio` raises
`ValueError("Efficient frontier is empty")` on an empty frontier, and
`ValueError("Could not find best portfolio")` on a non-empty frontier whose
points all have zero-or-negative standard deviation; in both cases no
`OptimizerResult` is returned (the spec names these two failures
`EmptyFrontierError` and `NoValidPortfolioError`). -/
theorem C7_error_cases (S : PortState) (sqrtQ : ℚ → ℚ)
    (solver : ℚ → Bool → Except String SolveResult) (budget : ℚ) (allow_short : Bool)
    (hsqrt : ∀ x, 0 ≤ sqrtQ x) :
    (efficientFrontier S sqrtQ solver budget 50 allow_short = [] →
      returnHighestSharpeRatio S sqrtQ solver budget allow_short
        = .error "Efficient frontier is empty") ∧
    (efficientFrontier S sqrtQ solver budget 50 allow_short ≠ [] →
      (∀ p ∈ efficientFrontier S sqrtQ solver budget 50 allow_short, p.std ≤ 0) →
      returnHighestSharpeRatio S sqrtQ solver budget allow_short
        = .error "Could not find best portfolio") := by
  constructor
  · intro h
    unfold returnHighestSharpeRatio
    rw [h]
    rfl
  · intro hne hall
    have hz : ∀ p ∈ efficientFrontier S sqrtQ solver budget 50 allow_short, p.std = 0 := by
      intro p hp
      refine le_antisymm (hall p hp) ?_
      obtain ⟨v, hv⟩ := mem_frontier_std S sqrtQ solver budget 50 allow_short p hp
      rw [hv]
      exact hsqrt v
    have hsel := selectLoop_all_zero _ hz
    have hemp : (efficientFrontier S sqrtQ solver budget 50 allow_short).isEmpty = false := by
      rw [List.isEmpty_eq_false]
      exact hne
    unfold returnHighestSharpeRatio
    simp only [hemp, hsel, Bool.false_eq_true, if_false]
    rfl

/-- The parameterised spec-side scan instantiated at the source's constant is
the source's scan. -/
theorem specSelGo_eq (l : List FrontierPoint) :
    ∀ (n : Nat) (st : Option ℚ × Int), specSelGo riskFreeRate l n st = selGo l n st := by
  induction l with
  | nil => intro n st; rfl
  | cons p rest ih =>
      intro n st
      simp only [specSelGo, selGo]
      by_cases hstd : p.std = 0
      · simp only [hstd, if_pos, ih]
      · simp only [hstd, if_neg, ite_false]
        obtain ⟨mx, idx⟩ := st
        cases mx with
        | none => exact ih (n + 1) _
        | some m =>
            simp only [sharpeOf]
            by_cases him : m < (p.target_return - riskFreeRate) / p.std
            · simp only [him, if_pos, ite_true, ih]
            · simp only [him, if_neg, ite_false, ih]

/-- Claim C10: the risk-free rate used by the Sharpe scan is the fixed
constant `0.03 / 252`; `return_highest_sharpe_ratio` takes only `budget` and
`allow_short`, so the scan always equals the spec's rate-parameterised scan
instantiated at that constant — no caller-supplied rate can change it. -/
theorem C10_risk_free_rate_constant :
    riskFreeRate = (0.03 : ℚ) / 252 ∧
    ∀ ef : List FrontierPoint, selectLoop ef = specSelectLoop ((0.03 : ℚ) / 252) ef := by
  constructor
  · rfl
  · intro ef
    unfold selectLoop specSelectLoop
    rw [show ((0.03 : ℚ) / 252) = riskFreeRate from rfl, specSelGo_eq]

/-- Claim C8: the target grid has `n_points` entries, consecutive entries
differ by the constant step `(max − min)/(n_points − 1)`, every entry lies
between the minimum and maximum mean return, the grid is non-decreasing, and
the frontier's target returns are exactly the successfully solved grid
points in grid order — hence also non-decreasing. -/
theorem C8_grid_and_order (S : PortState) (sqrtQ : ℚ → ℚ)
    (solver : ℚ → Bool → Except String SolveResult)
    (budget : ℚ) (n : Nat) (allow_short : Bool) (hne : S.mean_returns ≠ []) :
    (targetGrid S n).length = n ∧
    (∀ (i : Nat) (x y : ℚ), (targetGrid S n)[i]? = some x →
      (targetGrid S n)[i + 1]? = some y →
      y - x = (npMax S.mean_returns - npMin S.mean_returns) / ((n : ℚ) - 1)) ∧
    (∀ t ∈ targetGrid S n, npMin S.mean_returns ≤ t ∧ t ≤ npMax S.mean_returns) ∧
    (targetGrid S n).Pairwise (· ≤ ·) ∧
    (efficientFrontier S sqrtQ solver budget n allow_short).map FrontierPoint.target_return
      = (targetGrid S n).filter (solvedAt S sqrtQ solver budget allow_short) ∧
    ((efficientFrontier S sqrtQ solver budget n allow_short).map
      FrontierPoint.target_return).Pairwise (· ≤ ·) := by
  have hab := npMin_le_npMax S.mean_returns hne
  have hpw := linspaceQ_pairwise (npMin S.mean_returns) (npMax S.mean_returns) n hab
  have hfil := frontier_targets_eq_filter S sqrtQ solver budget n allow_short
  refine ⟨linspaceQ_length _ _ n, ?_, ?_, hpw, hfil, ?_⟩
  · intro i x y hx hy
    have hi1 : i + 1 < n := by
      by_contra hcon
      rw [targetGrid] at hy
      rw [List.getElem?_eq_none (by rw [linspaceQ_length]; omega)] at hy
      exact absurd hy (by simp)
    have hi : i < n := by omega
    rw [targetGrid, linspaceQ_getElem? _ _ n i hi, Option.some_inj] at hx
    rw [targetGrid, linspaceQ_getElem? _ _ n (i + 1) hi1, Option.some_inj] at hy
    rw [← hx, ← hy]
    push_cast
    have key : ∀ (a A c iq : ℚ), a + A * (iq + 1) / c - (a + A * iq / c) = A / c := by
      intro a A c iq
      rw [show a + A * (iq + 1) / c - (a + A * iq / c) = A * (iq + 1) / c - A * iq / c from by
            ring,
        div_sub_div_same, show A * (iq + 1) - A * iq = A from by ring]
    exact key _ _ _ _
  · intro t ht
    exact linspaceQ_mem_bounds _ _ n hab t ht
  · rw [hfil]
    exact hpw.sublist (List.filter_sublist _)

/-! ### Claim C9: the budget allocation of line 278 -/

/-- Claim C9: the allocation maps each ticker entry `(t, w)` of the selected
weights to `(t, w * budget)`, and when the weights sum to 1 the allocation
values sum to the budget. -/
theorem C9_allocation_scales_weights (ws : List (String × ℚ)) (budget : ℚ)
    (hsum : (ws.map Prod.snd).sum = 1) :
    (∀ (i : Nat) (t : String) (w : ℚ), ws[i]? = some (t, w) →
      (allocationBudget ws budget)[i]? = some (t, w * budget)) ∧
    ((allocationBudget ws budget).map Prod.snd).sum = budget := by
  constructor
  · intro i t w hi
    unfold allocationBudget
    rw [List.getElem?_map, hi]
    rfl
  · unfold allocationBudget
    rw [List.map_map]
    have hfun : (Prod.snd ∘ fun kv : String × ℚ => (kv.1, kv.2 * budget))
        = fun kv : String × ℚ => kv.2 * budget := rfl
    rw [hfun, List.sum_map_mul_right, hsum, one_mul]

theorem C9_allocation_scales_weights_witness :
    ((allocationBudget [("A", (1 : ℚ))] 5).map Prod.snd).sum = 5 :=
  (C9_allocation_scales_weights [("A", (1 : ℚ))] 5 (by simp)).2

/-! ### Claim C5: behaviour of the estimator on fewer than 2 aligned rows -/

/-- Claim C5 counterexample: a single aligned price observation.  The
constructor does not fail — it returns `ok` with `NaN` (here `none`)
mean-return and covariance statistics; no `InsufficientDataError` (nor any
other error) is raised anywhere in `__init__`/`__extract_data`/
`__normalize_data`. -/
theorem C5_counterexample_one_row :
    optimizerInit ["A"] [[some 100]] 1
      = .ok { mean_returns := [none], cov := [[none]] } := rfl

/-- Claim C5 (amended): when fewer than 2 aligned rows survive
forward-filling and row-dropping, the Returns Estimator does not raise; the
constructor succeeds and every mean-return and covariance statistic is `NaN`
(modelled `none`), the failure surfacing only in later NaN arithmetic. -/
theorem C5_short_data_nan_stats (tickers : List String)
    (cols : List (List (Option ℚ))) (nRows : Nat)
    (hshort : (completeRows (cols.map ffill) nRows).length ≤ 1) :
    ∃ st : EstimatorStats, optimizerInit tickers cols nRows = .ok st ∧
      (∀ m ∈ st.mean_returns, m = none) ∧
      (∀ row ∈ st.cov, ∀ c ∈ row, c = none) := by
  have hrets : pctChangeRows (completeRows (cols.map ffill) nRows) = [] := by
    cases h : completeRows (cols.map ffill) nRows with
    | nil => rfl
    | cons r rest =>
        cases rest with
        | nil => rfl
        | cons r2 rest2 =>
            rw [h] at hshort
            simp at hshort
  refine ⟨{ mean_returns := (List.range tickers.length).map (colMean []),
            cov := (List.range tickers.length).map
              (fun i => (List.range tickers.length).map (fun j => colCov [] i j)) },
          ?_, ?_, ?_⟩
  · unfold optimizerInit
    simp only [hrets]
  · intro m hm
    rw [List.mem_map] at hm
    obtain ⟨i, _, hmi⟩ := hm
    rw [← hmi]
    rfl
  · intro row hrow c hc
    rw [List.mem_map] at hrow
    obtain ⟨i, _, hri⟩ := hrow
    rw [← hri, List.mem_map] at hc
    obtain ⟨j, _, hcj⟩ := hc
    rw [← hcj]
    rfl

theorem C5_short_data_nan_stats_witness :
    ∃ st : EstimatorStats, optimizerInit ["A"] [[some 100]] 1 = .ok st ∧
      (∀ m ∈ st.mean_returns, m = none) ∧
      (∀ row ∈ st.cov, ∀ c ∈ row, c = none) :=
  C5_short_data_nan_stats ["A"] [[some 100]] 1 (by decide)

/-! ### Concrete pipeline runs

A one-asset portfolio with daily mean return `1/500` and daily variance
`1/2500`.  The abstract solver returns the unique feasible point `w = [1]`
with `success = True` (exactly what SLSQP produces for this input), and the
square-root table records `sqrt(1/2500) = 1/50`. -/

def Sone : PortState :=
  { tickers := ["A"], mean_returns := [1 / 500], cov := [[1 / 2500]] }

def sqrtOne : ℚ → ℚ := fun x => if x = 1 / 2500 then 1 / 50 else 0

def solverOne : ℚ → Bool → Except String SolveResult :=
  fun _ _ => .ok { x := [1], success := true }

/-- The frontier point produced at any positive budget. -/
def ptPos : FrontierPoint :=
  { target_return := 1 / 500, variance := 1 / 2500, std := 1 / 50, weights := [("A", 1)] }

/-- The frontier point produced at budget 0: the `else v` branch of
line 210 returns the unscaled currency amount `w * 0 = 0` as the weight. -/
def ptZero : FrontierPoint :=
  { target_return := 1 / 500, variance := 1 / 2500, std := 1 / 50, weights := [("A", 0)] }

theorem linspaceQ_self (a : ℚ) (n : Nat) : linspaceQ a a n = List.replicate n a := by
  unfold linspaceQ
  rw [List.eq_replicate_iff]
  refine ⟨by rw [List.length_map, List.length_range], ?_⟩
  intro b hb
  rw [List.mem_map] at hb
  obtain ⟨i, _, hbi⟩ := hb
  rw [← hbi]
  norm_num

theorem targetGrid_Sone (n : Nat) : targetGrid Sone n = List.replicate n (1 / 500) :=
  linspaceQ_self (1 / 500) n

theorem filterMap_replicate_some {α β : Type} (f : α → Option β) (a : α) (b : β)
    (h : f a = some b) : ∀ n, List.filterMap f (List.replicate n a) = List.replicate n b := by
  intro n
  induction n with
  | zero => rfl
  | succ n ih => simp [List.replicate_succ, List.filterMap_cons, h, ih]

theorem rangeOne : List.range 1 = [0] := by decide

theorem frontStep_Sone_pos :
    frontStep Sone sqrtOne solverOne 10000 false (1 / 500) = some ptPos := by
  norm_num [frontStep, minimizeRisks, solverOne, Sone, sqrtOne, mkPortfolio, quadFormQ,
    dotQ, matVecQ, rangeOne, List.getD, ptPos]

theorem frontStep_Sone_zero :
    frontStep Sone sqrtOne solverOne 0 false (1 / 500) = some ptZero := by
  norm_num [frontStep, minimizeRisks, solverOne, Sone, sqrtOne, mkPortfolio, quadFormQ,
    dotQ, matVecQ, rangeOne, List.getD, ptZero]

theorem efficientFrontier_Sone_pos :
    efficientFrontier Sone sqrtOne solverOne 10000 50 false = List.replicate 50 ptPos := by
  rw [efficientFrontier_eq, targetGrid_Sone,
    filterMap_replicate_some _ _ _ frontStep_Sone_pos]

theorem efficientFrontier_Sone_zero :
    efficientFrontier Sone sqrtOne solverOne 0 50 false = List.replicate 50 ptZero := by
  rw [efficientFrontier_eq, targetGrid_Sone,
    filterMap_replicate_some _ _ _ frontStep_Sone_zero]

/-- On a constant frontier of valid points, the scan picks the first point. -/
theorem selectLoop_replicate (n : Nat) (hn : 0 < n) (p : FrontierPoint) (hstd : p.std ≠ 0) :
    selectLoop (List.replicate n p) = (some (sharpeOf p), 0) := by
  have hex : ∃ q ∈ List.replicate n p, q.std ≠ 0 :=
    ⟨p, List.mem_replicate.mpr ⟨by omega, rfl⟩, hstd⟩
  obtain ⟨k, q, hk, hqstd, hout, hle, hlt⟩ := selectLoop_found (List.replicate n p) hex
  have hq : q = p := by
    rw [List.getElem?_replicate] at hk
    by_cases hkn : k < n
    · rw [if_pos hkn, Option.some_inj] at hk
      exact hk.symm
    · rw [if_neg hkn] at hk
      exact absurd hk (by simp)
  subst hq
  have h0 : (List.replicate n q)[0]? = some q := by
    rw [List.getElem?_replicate, if_pos hn]
  have hk0 : k = 0 := by
    by_contra hne
    exact absurd (hlt 0 q (by omega) h0 hstd) (lt_irrefl _)
  rw [hout, hk0]
  rfl

theorem ptPos_std_ne : ptPos.std ≠ 0 := by norm_num [ptPos]

theorem ptZero_std_ne : ptZero.std ≠ 0 := by norm_num [ptZero]

theorem getStat_daily_variance (p : FrontierPoint) :
    p.getStat "daily_variance" = none := by
  simp [FrontierPoint.getStat]

/-- Claim C1 (code defect at line 289): with a converged frontier and a
positive-`std` selected point, `return_highest_sharpe_ratio` crashes with
`TypeError` instead of returning an `OptimizerResult` — the code reads the
absent dictionary key `daily_variance` (the frontier dictionary's key is
`variance`), obtains `None`, and multiplies it by `np.sqrt(252)`; no
successful call producing `volatility = std_dev * sqrt(252)` exists. -/
theorem C1_volatility_crash :
    returnHighestSharpeRatio Sone sqrtOne solverOne 10000 false
      = .error "TypeError: unsupported operand type(s) for *: NoneType and float" := by
  have hef := efficientFrontier_Sone_pos
  have hsel : selectLoop (List.replicate 50 ptPos) = (some (sharpeOf ptPos), 0) :=
    selectLoop_replicate 50 (by omega) ptPos ptPos_std_ne
  have hemp : (List.replicate 50 ptPos).isEmpty = false := by simp
  have h0 : (List.replicate 50 ptPos)[0]? = some ptPos := by
    rw [List.getElem?_replicate, if_pos (by omega)]
  unfold returnHighestSharpeRatio
  simp only [hef, hemp, hsel, Bool.false_eq_true, if_false]
  simp only [h0, getStat_daily_variance]

/-- Claim C2 (code defect at line 210): with `budget = 0` every frontier
weight is the unscaled `w * 0 = 0`, so the weight mappings are all-zero
rather than unchanged; the Sharpe selection state is identical to the
positive-budget run (std and target are budget-independent), but the weights
differ (`0` vs `1`).  (The final call also crashes before returning — see
the volatility defect.) -/
theorem C2_zero_budget_zeroes_weights :
    (efficientFrontier Sone sqrtOne solverOne 0 50 false).map FrontierPoint.weights
      = List.replicate 50 [("A", 0)] ∧
    (efficientFrontier Sone sqrtOne solverOne 10000 50 false).map FrontierPoint.weights
      = List.replicate 50 [("A", 1)] ∧
    selectLoop (efficientFrontier Sone sqrtOne solverOne 0 50 false)
      = selectLoop (efficientFrontier Sone sqrtOne solverOne 10000 50 false) := by
  refine ⟨?_, ?_, ?_⟩
  · rw [efficientFrontier_Sone_zero, List.map_replicate]
    rfl
  · rw [efficientFrontier_Sone_pos, List.map_replicate]
    rfl
  · rw [efficientFrontier_Sone_zero, efficientFrontier_Sone_pos,
      selectLoop_replicate 50 (by omega) ptZero ptZero_std_ne,
      selectLoop_replicate 50 (by omega) ptPos ptPos_std_ne]
    rfl

/-- Claim C4 (code defect, same root cause as the `budget = 0` weight bug):
the pipeline returns a weight mapping whose sum is 0, violating
`|sum(weights) − 1| < 1e-6`. -/
theorem C4_weight_sum_invariant_fails :
    ∃ p ∈ efficientFrontier Sone sqrtOne solverOne 0 50 false,
      ¬ |((p.weights.map Prod.snd).sum) - 1| < 1 / 1000000 := by
  rw [efficientFrontier_Sone_zero]
  refine ⟨ptZero, List.mem_replicate.mpr ⟨by omega, rfl⟩, ?_⟩
  norm_num [ptZero]

/-! ### Witness inputs for the selection and error-path theorems -/

def ptA : FrontierPoint :=
  { target_return := 1 / 100, variance := 1 / 100, std := 1 / 10, weights := [("A", 1)] }

def ptB : FrontierPoint :=
  { target_return := 2 / 100, variance := 1 / 100, std := 1 / 10, weights := [("A", 1)] }

def efWitness : List FrontierPoint := [ptA, ptB]

theorem C3_sharpe_selection_witness :
    ∃ (i : Nat) (p : FrontierPoint), (selectLoop efWitness).2 = (i : Int) ∧
      efWitness[i]? = some p ∧ 0 < p.std ∧
      (∀ (j : Nat) (q : FrontierPoint), efWitness[j]? = some q → 0 < q.std →
        sharpeOf q ≤ sharpeOf p) ∧
      (∀ (j : Nat) (q : FrontierPoint), j < i → efWitness[j]? = some q → 0 < q.std →
        sharpeOf q < sharpeOf p) ∧
      (∀ (j : Nat) (q : FrontierPoint), efWitness[j]? = some q → 0 < q.std →
        sharpeOf q = sharpeOf p → p.target_return ≤ q.target_return) :=
  C3_sharpe_selection efWitness
    (by norm_num [efWitness, ptA, ptB])
    (by norm_num [efWitness, ptA, ptB, List.pairwise_cons])
    ⟨ptA, by simp [efWitness], by norm_num [ptA]⟩

/-- A solver whose every call raises: the frontier is empty. -/
def solverFail : ℚ → Bool → Except String SolveResult :=
  fun _ _ => .error "solver raised"

theorem C7_error_cases_witness :
    (efficientFrontier Sone (fun _ => 0) solverFail 5 50 false = [] →
      returnHighestSharpeRatio Sone (fun _ => 0) solverFail 5 false
        = .error "Efficient frontier is empty") ∧
    (efficientFrontier Sone (fun _ => 0) solverFail 5 50 false ≠ [] →
      (∀ p ∈ efficientFrontier Sone (fun _ => 0) solverFail 5 50 false, p.std ≤ 0) →
      returnHighestSharpeRatio Sone (fun _ => 0) solverFail 5 false
        = .error "Could not find best portfolio") :=
  C7_error_cases Sone (fun _ => 0) solverFail 5 false (fun _ => le_refl 0)

theorem C8_grid_and_order_witness : (targetGrid Sone 50).length = 50 :=
  (C8_grid_and_order Sone sqrtOne solverOne 10000 50 false (by simp [Sone])).1

end PortfolioOpt
